import Mathlib

/-!
Shallow embedding of the real-time voice tuner's core pipeline
(`src/services/audioService.ts` and the `App` processing loop) and proofs
about it.  JavaScript numbers are modelled by exact rationals `ℚ` for the
pitch detector and the session state machine, and by the reals `ℝ` for the
note mapper (whose specification speaks about exact real arithmetic of
logarithms).  Fallible code paths (a thrown `RangeError`) are modelled with
`Option`.
-/

namespace Afinador

/-! ### PitchDetector: `findFundamentalFrequency` (audioService.ts, lines 49-143) -/

/-- Sum of squares of the buffer, `buffer.reduce((sum, val) => sum + val*val, 0)`
(line 51). -/
def sumSq (buf : List ℚ) : ℚ := (buf.map (fun x => x * x)).sum

/-- The RMS silence gate `rms < 0.01` of lines 51-56, in square-free form:
for `size > 0`, `sqrt (sumSq / size) < 1/100 ↔ 10000 * sumSq < size`.
For `size = 0` the JS expression is `sqrt (NaN)` and `NaN < 0.01` is `false`,
hence the `0 < size` conjunct. -/
def rmsBelowGate (buf : List ℚ) : Prop :=
  0 < buf.length ∧ 10000 * sumSq buf < (buf.length : ℚ)

instance (buf : List ℚ) : Decidable (rmsBelowGate buf) := by
  unfold rmsBelowGate; infer_instance

/-- Lag lower bound `minPeriod = Math.floor(sampleRate / maxFreq)` with
`maxFreq = 200` (lines 59-61). -/
def minPeriodOf (rate : ℚ) : ℤ := ⌊rate / 200⌋

/-- Array size `searchSize = maxPeriod = Math.ceil(sampleRate / minFreq)` with
`minFreq = 80` (lines 62-63), clamped to `ℕ`; `findFundamentalFrequency`
returns `none` (the thrown `RangeError` of `new Array(searchSize)`) before
this clamp matters when the ceiling is negative. -/
def searchSizeOf (rate : ℚ) : ℕ := (⌈rate / 80⌉).toNat

/-- One cell of the `correlations` array after the double loop of lines 66-71:
cells with `lag < minPeriod` keep their `fill(0)` value, computed cells hold
`Σ_{i < size - lag} buffer[i] * buffer[i+lag]`.  Out-of-range indices (never
read back by the later loops) are also 0 here. -/
def corrAt (buf : List ℚ) (minPeriod : ℤ) (searchSize lag : ℕ) : ℚ :=
  if minPeriod ≤ (lag : ℤ) ∧ lag < searchSize then
    ((List.range (buf.length - lag)).map
      (fun i => buf.getD i 0 * buf.getD (i + lag) 0)).sum
  else 0

/-- The correlations of a given buffer and sample rate. -/
def corrOf (buf : List ℚ) (rate : ℚ) : ℕ → ℚ :=
  corrAt buf (minPeriodOf rate) (searchSizeOf rate)

/-- The `firstDip` while-loop of lines 76-79 walks `k = 0, 1, 2, ...` while
`k < searchSize - 1 ∧ corr k > corr (k+1)`, so it stops at the first `k`
where that condition fails (and at `k = 0` when the range is empty). -/
def firstDip (corr : ℕ → ℚ) (searchSize : ℕ) : ℕ :=
  match (List.range' 0 searchSize).find?
      (fun k => !(decide (k + 1 < searchSize) && decide (corr k > corr (k + 1)))) with
  | some k => k
  | none => 0

/-- Effective scan start `searchStart = Math.max(minPeriod, firstDip)`
(line 80).  `Int.toNat` agrees with the JS `max` because `firstDip ≥ 0`. -/
def searchStartOf (buf : List ℚ) (rate : ℚ) : ℕ :=
  max (minPeriodOf rate).toNat (firstDip (corrOf buf rate) (searchSizeOf rate))

/-- The maximum-peak scan of lines 83-88: `maxVal` starts at `-1` and takes
`correlations[i]` whenever it is strictly larger. -/
def maxValFrom (corr : ℕ → ℚ) (a b : ℕ) : ℚ :=
  ((List.range' a (b - a)).map corr).foldl max (-1)

/-- The value of `maxVal` for a given buffer and sample rate. -/
def maxValOf (buf : List ℚ) (rate : ℚ) : ℚ :=
  maxValFrom (corrOf buf rate) (searchStartOf buf rate) (searchSizeOf rate)

/-- The qualification test of line 101: a local maximum above the clarity
threshold.  In JS, `i = 0` can never qualify because `correlations[-1]` is
`undefined` and `x > undefined` is `false`; with truncated `ℕ` subtraction
`corr 0 > corr (0 - 1)` is `corr 0 > corr 0`, which is equally `false`. -/
def peakQualifies (corr : ℕ → ℚ) (thr : ℚ) (i : ℕ) : Bool :=
  decide (corr i > thr) && decide (corr i > corr (i - 1)) && decide (corr i > corr (i + 1))

/-- The first-peak scan of lines 99-105: first `i ∈ [searchStart, searchSize-1)`
with `correlations[i] > clarityThreshold` that is a local maximum. -/
def firstPeak (corr : ℕ → ℚ) (thr : ℚ) (a b : ℕ) : Option ℕ :=
  (List.range' a (b - a)).find? (peakQualifies corr thr)

/-- The fallback scan of lines 108-118: first position of the running strict
maximum, starting from `maxPos = -1`, `fallbackMaxVal = -1`. -/
def fallbackScan (corr : ℕ → ℚ) : List ℕ → ℤ × ℚ → ℤ × ℚ
  | [], acc => acc
  | i :: rest, acc =>
      if corr i > acc.2 then fallbackScan corr rest ((i : ℤ), corr i)
      else fallbackScan corr rest acc

/-- The `period` produced by the fallback loop. -/
def fallbackPeriod (corr : ℕ → ℚ) (a b : ℕ) : ℤ :=
  (fallbackScan corr (List.range' a (b - a)) (-1, -1)).1

/-- The integer `period` chosen by lines 99-118 (first qualifying peak, else
fallback global maximum, else `-1`). -/
def periodOf (buf : List ℚ) (rate : ℚ) : ℤ :=
  match firstPeak (corrOf buf rate) (maxValOf buf rate * (9 / 10))
      (searchStartOf buf rate) (searchSizeOf rate - 1) with
  | some p => (p : ℤ)
  | none => fallbackPeriod (corrOf buf rate) (searchStartOf buf rate) (searchSizeOf rate)

/-- The parabolic-interpolation tail of lines 124-142, for a chosen period
`T0 > 0`.  Interpolation runs only under the guard
`period > 0 && period < searchSize - 1` (line 125), under which both
neighbours are in range (so the `|| 0` defaults of lines 127-129 never
replace anything). -/
def refineAt (buf : List ℚ) (rate : ℚ) (T0 : ℕ) : ℚ :=
  let corr := corrOf buf rate
  if 0 < (T0 : ℤ) ∧ (T0 : ℤ) < (searchSizeOf rate : ℤ) - 1 then
    let y1 := corr (T0 - 1)
    let y0 := corr T0
    let y2 := corr (T0 + 1)
    let pDen := 2 * (2 * y0 - y2 - y1)
    if pDen ≠ 0 then
      let T := (T0 : ℚ) + (y2 - y1) / pDen
      if T ≤ 0 then 0 else rate / T
    else rate / (T0 : ℚ)
  else rate / (T0 : ℚ)

/-- Shallow embedding of `findFundamentalFrequency` (lines 49-143).
`none` models the `RangeError` thrown by `new Array(searchSize)` when
`searchSize` is negative (only possible for `sampleRate ≤ -80`); every other
input produces a number. -/
def findFundamentalFrequency (buf : List ℚ) (rate : ℚ) : Option ℚ :=
  if rmsBelowGate buf then some 0
  else if ⌈rate / 80⌉ < 0 then none
  else if maxValOf buf rate ≤ 0 then some 0
  else
    let period := periodOf buf rate
    if period ≤ 0 then some 0
    else some (refineAt buf rate period.toNat)

/-! ### PitchSession: the `processAudio` state machine (App component) -/

/-- Smoothing factor `SMOOTHING_ALPHA = 0.055` (App line 8). -/
def SMOOTHING_ALPHA : ℚ := 11 / 200

/-- Pause threshold `PAUSE_THRESHOLD_MS = 500` (App line 9). -/
def PAUSE_THRESHOLD_MS : ℚ := 500

/-- Freeze delay `FREEZE_ON_SILENCE_MS = 5000` (App line 10). -/
def FREEZE_ON_SILENCE_MS : ℚ := 5000

/-- The in-band test of App line 43:
`fundamentalFrequency >= 80 && fundamentalFrequency <= 200`. -/
def isFrequencyInRange (f : ℚ) : Prop := 80 ≤ f ∧ f ≤ 200

instance (f : ℚ) : Decidable (isFrequencyInRange f) := by
  unfold isFrequencyInRange; infer_instance

/-- One exponential-smoothing update (App line 53). -/
def smootherUpdate (estimate prev : ℚ) : ℚ :=
  SMOOTHING_ALPHA * estimate + (1 - SMOOTHING_ALPHA) * prev

/-- The mutable state held across `processAudio` ticks: the smoother scalar
`smoothedFrequencyRef`, the React states `detectedFrequency`,
`displayedFrequency` and `averageFrequency`, the history
`frequencyHistoryRef` of `(freq, timestamp)` readings,
`lastSoundTimestampRef`, and the armed freeze timer
`resetStateTimeoutRef` modelled by its absolute expiry time. -/
structure SessionState where
  smoothed : ℚ
  detected : ℚ
  displayed : ℚ
  average : ℚ
  history : List (ℚ × ℚ)
  lastSound : ℚ
  freezeDeadline : Option ℚ

/-- State right after `startListening` resets everything (App lines 136-142),
which is also the `stopListening` teardown state (lines 212-223). -/
def initialState : SessionState :=
  { smoothed := 0, detected := 0, displayed := 0, average := 0,
    history := [], lastSound := 0, freezeDeadline := none }

/-- Arithmetic mean of the history (App lines 88-93); `0` when empty. -/
def historyAverage (h : List (ℚ × ℚ)) : ℚ :=
  if 0 < h.length then ((h.map Prod.fst).sum) / (h.length : ℚ) else 0

/-- One `processAudio` tick (App lines 43-93) at wall-clock time `now` with
pitch-detector output `est`, for a session in the Listening state.  A valid
in-band estimate cancels any pending freeze timer, updates the smoother,
records `lastSoundTimestamp = now` and appends the new smoothed reading;
otherwise a freeze timer is armed at `now + FREEZE_ON_SILENCE_MS` if none is
armed.  Every tick then prunes readings older than 3000 ms, clears the
history when `now - lastSound > PAUSE_THRESHOLD_MS`, and recomputes the
average. -/
def processFrame (s : SessionState) (est now : ℚ) : SessionState :=
  let s1 :=
    if isFrequencyInRange est then
      let ns := smootherUpdate est s.smoothed
      { s with freezeDeadline := none, smoothed := ns, detected := ns,
               lastSound := now, history := s.history ++ [(ns, now)] }
    else
      match s.freezeDeadline with
      | none => { s with freezeDeadline := some (now + FREEZE_ON_SILENCE_MS) }
      | some _ => s
  let pruned := s1.history.filter (fun r => now - r.2 < 3000)
  let h2 := if now - s1.lastSound > PAUSE_THRESHOLD_MS then [] else pruned
  { s1 with history := h2, average := historyAverage h2 }

/-- The freeze-timer callback (App lines 63-68): zero the instant value, the
stable display and the smoother, and disarm the timer. -/
def fireFreeze (s : SessionState) : SessionState :=
  { s with detected := 0, displayed := 0, smoothed := 0, freezeDeadline := none }

/-- An externally triggered event while Listening: an audio frame tick
(carrying the pitch-detector result) or the 1000 ms display-sampling tick
(App lines 99-111). -/
inductive SessionEvent where
  | frame (est : ℚ)
  | displayTick

/-- Effect of one event at time `now` (after any due freeze timer fired).
The display tick copies the smoothed value into the stable display only
above the 1 Hz dead zone (App line 104). -/
def applyEvent (s : SessionState) (now : ℚ) : SessionEvent → SessionState
  | .frame est => processFrame s est now
  | .displayTick => if 1 < s.smoothed then { s with displayed := s.smoothed } else s

/-- Process one timed event: an armed freeze timer whose expiry has been
reached fires first (the browser runs the earlier-scheduled timeout callback
before a later frame/interval callback), then the event is applied. -/
def step (s : SessionState) (e : ℚ × SessionEvent) : SessionState :=
  let s1 :=
    match s.freezeDeadline with
    | some d => if d ≤ e.1 then fireFreeze s else s
    | none => s
  applyEvent s1 e.1 e.2

/-- A run of the session over a list of timed events. -/
def run (s : SessionState) (evs : List (ℚ × SessionEvent)) : SessionState :=
  evs.foldl step s

/-- The freeze timer of `s` is armed and due at time `now`. -/
def freezeDue (s : SessionState) (now : ℚ) : Prop :=
  ∃ d, s.freezeDeadline = some d ∧ d ≤ now

/-- The average as shown to the user: `'--'` (no value) unless positive
(App line 271, `AverageFrequencyDisplay` line 12). -/
def averageReading (s : SessionState) : Option ℚ :=
  if 0 < s.average then some s.average else none

/-- Iterated smoother updates under a constant estimate. -/
def smootherIter (f s0 : ℚ) : ℕ → ℚ
  | 0 => s0
  | n + 1 => smootherUpdate f (smootherIter f s0 n)

/-! ### NoteMapper: `frequencyToNoteDetails` / `getFrequencyForNote`
(audioService.ts, lines 1-40), over the reals. -/

/-- The pitch-class cycle `NOTE_NAMES` (line 3). -/
def NOTE_NAMES : List String :=
  ["A", "A#", "B", "C", "C#", "D", "D#", "E", "F", "F#", "G", "G#"]

/-- JS `Array.prototype.indexOf`: index of the first occurrence, `-1` when
absent. -/
def jsIndexOf : List String → String → ℤ
  | [], _ => -1
  | a :: l, s =>
      if a = s then 0
      else
        let r := jsIndexOf l s
        if r = -1 then -1 else r + 1

/-- JS array read `l[i]`: `none` models `undefined` for a negative or
out-of-range index. -/
def jsAt (l : List String) (i : ℤ) : Option String :=
  if 0 ≤ i then l.get? i.toNat else none

/-- JS `Math.round`: round half toward positive infinity. -/
noncomputable def jsRound (x : ℝ) : ℤ := ⌊x + 1 / 2⌋

/-- Result record of `frequencyToNoteDetails` (line 25).  `noteName` is an
`Option` because the JS lookup `NOTE_NAMES[noteIndex]` can in principle be
`undefined`. -/
structure NoteDetails where
  noteName : Option String
  octave : ℤ
  frequency : ℝ
  cents : ℝ

/-- Embedding of `getFrequencyForNote` (lines 35-40): JS
`indexOf(undefined)` is `-1`. -/
noncomputable def getFrequencyForNote (noteName : Option String) (octave : ℤ) : ℝ :=
  let noteIndex : ℤ :=
    match noteName with
    | some s => jsIndexOf NOTE_NAMES s
    | none => -1
  let noteNumber : ℤ := noteIndex + octave * 12
  440 * (2 : ℝ) ^ (((noteNumber : ℝ) - 57) / 12)

/-- Local `noteNumber` of `frequencyToNoteDetails` (line 15):
`12 * (Math.log(frequency / 440) / Math.log(2))`. -/
noncomputable def noteNumberOf (frequency : ℝ) : ℝ :=
  12 * (Real.log (frequency / 440) / Real.log 2)

/-- Local `roundedNoteNumber` (line 16): `Math.round(noteNumber) + 57`. -/
noncomputable def roundedNoteNumberOf (frequency : ℝ) : ℤ :=
  jsRound (noteNumberOf frequency) + 57

/-- Local `noteIndex` (line 18): the truncating JS `%` by 12. -/
noncomputable def noteIndexOf (frequency : ℝ) : ℤ :=
  Int.tmod (roundedNoteNumberOf frequency) 12

/-- Local `octave` (line 19): `Math.floor(roundedNoteNumber / 12)`. -/
noncomputable def octaveOf (frequency : ℝ) : ℤ :=
  ⌊((roundedNoteNumberOf frequency : ℤ) : ℝ) / 12⌋

/-- Local `noteName` (line 20): `NOTE_NAMES[noteIndex]`. -/
noncomputable def noteNameOf (frequency : ℝ) : Option String :=
  jsAt NOTE_NAMES (noteIndexOf frequency)

/-- Local `targetFrequency` (line 22). -/
noncomputable def targetFrequencyOf (frequency : ℝ) : ℝ :=
  getFrequencyForNote (noteNameOf frequency) (octaveOf frequency)

/-- Embedding of `frequencyToNoteDetails` (lines 10-26) over exact real
arithmetic: `Math.log x / Math.log 2` and `Math.log2` are both `logb 2`,
`%` is the truncating JS remainder, `Math.floor` is the real floor; the
locals of the source body are the named definitions above. -/
noncomputable def frequencyToNoteDetails (frequency : ℝ) : Option NoteDetails :=
  if frequency = 0 then none
  else
    some { noteName := noteNameOf frequency, octave := octaveOf frequency,
           frequency := targetFrequencyOf frequency,
           cents := 1200 * Real.logb 2 (frequency / targetFrequencyOf frequency) }


/-- Modelled from the spec (claim C3's reading of lines 124-142): parabolic
interpolation applied at the chosen lag with `p` as in the spec and a
neighbour missing at an array edge treated as 0 (which `corrOf` already
yields outside `[0, searchSize)`); denominator 0 skips refinement, a
non-positive corrected lag gives 0, otherwise `sampleRate / (T0 + p)`. -/
def specRefineC3 (corr : ℕ → ℚ) (rate : ℚ) (T0 : ℕ) : ℚ :=
  let y1 := corr (T0 - 1)
  let y0 := corr T0
  let y2 := corr (T0 + 1)
  let den := 2 * (2 * y0 - y2 - y1)
  if den = 0 then rate / (T0 : ℚ)
  else if (T0 : ℚ) + (y2 - y1) / den ≤ 0 then 0
  else rate / ((T0 : ℚ) + (y2 - y1) / den)

/-! ## Lemmas -/

/-- Closed form of the smoother error under a constant estimate. -/
theorem smootherIter_sub_const (f s0 : ℚ) (n : ℕ) :
    smootherIter f s0 n - f = (1 - SMOOTHING_ALPHA) ^ n * (s0 - f) := by
  induction n with
  | zero => simp [smootherIter]
  | succ n ih =>
      calc smootherIter f s0 (n + 1) - f
          = (1 - SMOOTHING_ALPHA) * (smootherIter f s0 n - f) := by
            rw [smootherIter, smootherUpdate]; ring
        _ = (1 - SMOOTHING_ALPHA) ^ (n + 1) * (s0 - f) := by rw [ih]; ring

/-- A valid in-band tick: cancel the freeze timer, smooth, stamp
`lastSound = now`, append the reading; the pause check then compares
`now - now` and never clears, and the fresh reading survives the 3-second
filter. -/
theorem processFrame_valid (s : SessionState) (est now : ℚ)
    (h : isFrequencyInRange est) :
    processFrame s est now =
      { smoothed := smootherUpdate est s.smoothed,
        detected := smootherUpdate est s.smoothed,
        displayed := s.displayed,
        average := historyAverage
          ((s.history.filter (fun r => now - r.2 < 3000)) ++
            [(smootherUpdate est s.smoothed, now)]),
        history := (s.history.filter (fun r => now - r.2 < 3000)) ++
          [(smootherUpdate est s.smoothed, now)],
        lastSound := now,
        freezeDeadline := none } := by
  unfold processFrame
  rw [if_pos h]
  have hkeep : (decide (now - now < 3000)) = true := by
    simp
  have hpause : ¬ now - now > PAUSE_THRESHOLD_MS := by
    simp [PAUSE_THRESHOLD_MS]
  simp [List.filter_append, hkeep, hpause]
  norm_num [PAUSE_THRESHOLD_MS]

/-- An invalid tick leaves the scalar outputs and `lastSound` unchanged. -/
theorem processFrame_invalid_core (s : SessionState) (est now : ℚ)
    (h : ¬ isFrequencyInRange est) :
    (processFrame s est now).smoothed = s.smoothed ∧
    (processFrame s est now).detected = s.detected ∧
    (processFrame s est now).displayed = s.displayed ∧
    (processFrame s est now).lastSound = s.lastSound := by
  unfold processFrame
  rw [if_neg h]
  cases hfd : s.freezeDeadline <;> simp

/-- History after an invalid tick: a pause clears it, otherwise it is
pruned. -/
theorem processFrame_invalid_history (s : SessionState) (est now : ℚ)
    (h : ¬ isFrequencyInRange est) :
    (processFrame s est now).history =
      if now - s.lastSound > PAUSE_THRESHOLD_MS then []
      else s.history.filter (fun r => now - r.2 < 3000) := by
  unfold processFrame
  rw [if_neg h]
  cases hfd : s.freezeDeadline <;> simp

/-- Average after an invalid tick. -/
theorem processFrame_invalid_average (s : SessionState) (est now : ℚ)
    (h : ¬ isFrequencyInRange est) :
    (processFrame s est now).average =
      historyAverage ((processFrame s est now).history) := by
  unfold processFrame
  rw [if_neg h]

/-- An invalid tick with no armed timer arms one for `now + 5000`. -/
theorem processFrame_invalid_arm (s : SessionState) (est now : ℚ)
    (h : ¬ isFrequencyInRange est) (hfd : s.freezeDeadline = none) :
    (processFrame s est now).freezeDeadline = some (now + FREEZE_ON_SILENCE_MS) := by
  simp [processFrame, if_neg h, hfd]

/-- An invalid tick with an armed timer keeps it unchanged. -/
theorem processFrame_invalid_keep (s : SessionState) (est now : ℚ) (d : ℚ)
    (h : ¬ isFrequencyInRange est) (hfd : s.freezeDeadline = some d) :
    (processFrame s est now).freezeDeadline = some d := by
  simp [processFrame, if_neg h, hfd]

/-- With no armed-and-due timer, a step is just the event's effect. -/
theorem step_no_fire (s : SessionState) (e : ℚ × SessionEvent)
    (h : ¬ freezeDue s e.1) :
    step s e = applyEvent s e.1 e.2 := by
  unfold step
  cases hfd : s.freezeDeadline with
  | none => rfl
  | some d =>
      show applyEvent (if d ≤ e.1 then fireFreeze s else s) e.1 e.2 = applyEvent s e.1 e.2
      rw [if_neg (fun hle => h ⟨d, hfd, hle⟩)]

/-- With an armed timer that is due, the timer callback runs first. -/
theorem step_fire (s : SessionState) (t : ℚ) (ev : SessionEvent) (d : ℚ)
    (hfd : s.freezeDeadline = some d) (hle : d ≤ t) :
    step s (t, ev) = applyEvent (fireFreeze s) t ev := by
  unfold step
  rw [hfd]
  show applyEvent (if d ≤ t then fireFreeze s else s) t ev = applyEvent (fireFreeze s) t ev
  rw [if_pos hle]

/-- A frame step factors through `processFrame` applied to a state with the
same history and `lastSound` (the freeze callback touches neither). -/
theorem step_frame_as_processFrame (s : SessionState) (t est : ℚ) :
    ∃ s1 : SessionState,
      step s (t, .frame est) = processFrame s1 est t ∧
      s1.history = s.history ∧ s1.lastSound = s.lastSound ∧
      (s1.smoothed = s.smoothed ∨ s1.smoothed = 0) := by
  by_cases hdue : freezeDue s t
  · obtain ⟨d, hfd, hle⟩ := hdue
    exact ⟨fireFreeze s, step_fire s t _ d hfd hle, rfl, rfl, Or.inr rfl⟩
  · exact ⟨s, step_no_fire s (t, .frame est) hdue, rfl, rfl, Or.inl rfl⟩

/-! ## Claims -/

/-- C8, corrected.  The claim quantifies over every starting smoother state;
at the fixed point `s0 = f` the distance is constantly `0`, so it does not
shrink strictly.  Concretely, with `f = 100` and starting state `100`, one
update leaves the distance unchanged. -/
theorem c8_counterexample :
    0 < (100 : ℚ) ∧
      ¬ |smootherIter 100 100 1 - 100| < |smootherIter 100 100 0 - 100| := by
  constructor
  · norm_num
  · norm_num [smootherIter, smootherUpdate, SMOOTHING_ALPHA]

/-- C8, amended: for every constant estimate `f > 0`, if the starting state
differs from `f` then repeated updates `smoothed ← 0.055·f + 0.945·smoothed`
make the distance `|smoothed - f|` shrink strictly monotonically and converge
to 0, and the value never overshoots `f` (the sign of `smoothed - f` never
flips); from the fixed point `s0 = f` the iterates stay at `f` (the distance
is constantly 0, shrinking only non-strictly). -/
theorem c8_smoother_convergence (f s0 : ℚ) (hf : 0 < f) :
    (s0 ≠ f →
      (∀ n, |smootherIter f s0 (n + 1) - f| < |smootherIter f s0 n - f|) ∧
      (∀ n, (s0 < f → smootherIter f s0 n < f) ∧ (f < s0 → f < smootherIter f s0 n)) ∧
      (∀ ε : ℚ, 0 < ε → ∃ N, ∀ n, N ≤ n → |smootherIter f s0 n - f| < ε)) ∧
    (s0 = f → ∀ n, smootherIter f s0 n = f) := by
  have hα : (1 - SMOOTHING_ALPHA) = 189 / 200 := by norm_num [SMOOTHING_ALPHA]
  constructor
  · intro hne
    have hd : s0 - f ≠ 0 := sub_ne_zero.mpr hne
    refine ⟨?_, ?_, ?_⟩
    · intro n
      rw [smootherIter_sub_const, smootherIter_sub_const, pow_succ, abs_mul, abs_mul]
      have hpow : 0 < |(1 - SMOOTHING_ALPHA) ^ n| := by
        rw [hα]; positivity
      have habs : 0 < |s0 - f| := abs_pos.mpr hd
      rw [hα] at hpow ⊢
      calc |(189 / 200 : ℚ) ^ n| * |(189 / 200 : ℚ)| * |s0 - f|
          < |(189 / 200 : ℚ) ^ n| * 1 * |s0 - f| := by
            apply mul_lt_mul_of_pos_right _ habs
            apply mul_lt_mul_of_pos_left _ hpow
            rw [abs_of_pos] <;> norm_num
        _ = |(189 / 200 : ℚ) ^ n| * |s0 - f| := by ring
        _ = |(189 / 200 : ℚ) ^ n * (s0 - f)| := (abs_mul _ _).symm
    · intro n
      have hiter := smootherIter_sub_const f s0 n
      have hpow : 0 < (1 - SMOOTHING_ALPHA) ^ n := by rw [hα]; positivity
      constructor
      · intro hlt
        have : smootherIter f s0 n - f < 0 := by
          rw [hiter]
          exact mul_neg_of_pos_of_neg hpow (by linarith)
        linarith
      · intro hgt
        have : 0 < smootherIter f s0 n - f := by
          rw [hiter]
          exact mul_pos hpow (by linarith)
        linarith
    · intro ε hε
      have habs : 0 < |s0 - f| := abs_pos.mpr hd
      obtain ⟨N, hN⟩ := exists_pow_lt_of_lt_one (x := ε / |s0 - f|)
        (y := (189 / 200 : ℚ)) (by positivity) (by norm_num)
      refine ⟨N, fun n hn => ?_⟩
      rw [smootherIter_sub_const, abs_mul, hα]
      have h1 : |(189 / 200 : ℚ) ^ n| = (189 / 200 : ℚ) ^ n := by
        rw [abs_of_pos]; positivity
      rw [h1]
      have h2 : (189 / 200 : ℚ) ^ n ≤ (189 / 200 : ℚ) ^ N :=
        pow_le_pow_of_le_one (by norm_num) (by norm_num) hn
      have h3 : (189 / 200 : ℚ) ^ N * |s0 - f| < ε := (lt_div_iff₀ habs).mp hN
      calc (189 / 200 : ℚ) ^ n * |s0 - f|
          ≤ (189 / 200 : ℚ) ^ N * |s0 - f| := by
            exact mul_le_mul_of_nonneg_right h2 (abs_nonneg _)
        _ < ε := h3
  · intro heq n
    subst heq
    have := smootherIter_sub_const s0 s0 n
    simp at this
    linarith

/-- Witness for C8's amended theorem at `f = 100`, `s0 = 0`. -/
theorem c8_witness :
    (0 : ℚ) < 100 ∧ (0 : ℚ) ≠ 100 ∧
      |smootherIter 100 0 1 - 100| < |smootherIter 100 0 0 - 100| :=
  ⟨by norm_num, by norm_num,
    ((c8_smoother_convergence 100 0 (by norm_num)).1 (by norm_num)).1 0⟩

/-- C10, confirmed.  Right after any reset of the smoother to 0, a first
valid in-band estimate `f ∈ [80, 200]` yields a smoothed value of exactly
`0.055·f ∈ [4.4, 11]`, far below the 80-200 Hz band, and that below-band
value is appended to the history and enters the rolling average. -/
theorem c10_post_reset_reading (s : SessionState) (now f : ℚ)
    (hz : s.smoothed = 0) (h80 : 80 ≤ f) (h200 : f ≤ 200) :
    (step s (now, .frame f)).smoothed = SMOOTHING_ALPHA * f ∧
    (22 / 5 : ℚ) ≤ (step s (now, .frame f)).smoothed ∧
    (step s (now, .frame f)).smoothed ≤ 11 ∧
    (step s (now, .frame f)).smoothed < 80 ∧
    (SMOOTHING_ALPHA * f, now) ∈ (step s (now, .frame f)).history ∧
    (step s (now, .frame f)).history ≠ [] ∧
    (step s (now, .frame f)).average =
      (((step s (now, .frame f)).history.map Prod.fst).sum) /
        ((step s (now, .frame f)).history.length : ℚ) := by
  obtain ⟨s1, hstep, hhist, hlast, hsm⟩ := step_frame_as_processFrame s now f
  have hs1z : s1.smoothed = 0 := by
    rcases hsm with h | h
    · rw [h, hz]
    · exact h
  have hv : isFrequencyInRange f := ⟨h80, h200⟩
  have hupd : smootherUpdate f s1.smoothed = SMOOTHING_ALPHA * f := by
    rw [hs1z, smootherUpdate]; ring
  rw [hstep, processFrame_valid s1 f now hv, hupd]
  have hα : SMOOTHING_ALPHA = 11 / 200 := rfl
  refine ⟨rfl, by rw [hα]; linarith, by rw [hα]; linarith, by rw [hα]; linarith,
    ?_, ?_, ?_⟩
  · exact List.mem_append_right _ (List.mem_singleton.mpr rfl)
  · simp
  · rw [historyAverage, if_pos]
    simp

/-- Witness for C10 at the fresh session state, `now = 0`, `f = 100`. -/
theorem c10_witness :
    initialState.smoothed = 0 ∧ (80 : ℚ) ≤ 100 ∧ (100 : ℚ) ≤ 200 ∧
      ((step initialState (0, .frame 100)).smoothed = SMOOTHING_ALPHA * 100 ∧
        (22 / 5 : ℚ) ≤ (step initialState (0, .frame 100)).smoothed ∧
        (step initialState (0, .frame 100)).smoothed ≤ 11 ∧
        (step initialState (0, .frame 100)).smoothed < 80 ∧
        (SMOOTHING_ALPHA * 100, (0 : ℚ)) ∈ (step initialState (0, .frame 100)).history ∧
        (step initialState (0, .frame 100)).history ≠ [] ∧
        (step initialState (0, .frame 100)).average =
          (((step initialState (0, .frame 100)).history.map Prod.fst).sum) /
            (((step initialState (0, .frame 100)).history.length : ℚ))) :=
  ⟨rfl, by norm_num, by norm_num,
    c10_post_reset_reading initialState 0 100 rfl (by norm_num) (by norm_num)⟩

/-- C6, confirmed.  (1) After every frame tick at time `now`, every reading
left in the history satisfies `now - timestamp < 3000`.  (2) In particular,
in a run with valid readings at t = 0 and t = 2900, a tick at t = 2999
keeps both readings, and a tick at t = 3001 prunes the t = 0 reading. -/
theorem c6_window_invariant :
    (∀ (s : SessionState) (est now : ℚ) (r : ℚ × ℚ),
        r ∈ (step s (now, .frame est)).history → now - r.2 < 3000) ∧
    (run initialState
        [(0, .frame 100), (2900, .frame 100), (2999, .frame 0)]).history =
      [(11 / 2, 0), (4279 / 400, 2900)] ∧
    (run initialState
        [(0, .frame 100), (2900, .frame 100), (2999, .frame 0), (3001, .frame 0)]).history =
      [(4279 / 400, 2900)] := by
  refine ⟨?_, ?_, ?_⟩
  · intro s est now r hr
    obtain ⟨s1, hstep, -, -, -⟩ := step_frame_as_processFrame s now est
    rw [hstep] at hr
    by_cases hv : isFrequencyInRange est
    · rw [processFrame_valid s1 est now hv] at hr
      rcases List.mem_append.mp hr with hl | hrr
      · have := (List.mem_filter.mp hl).2
        exact of_decide_eq_true this
      · have : r = (smootherUpdate est s1.smoothed, now) := List.mem_singleton.mp hrr
        rw [this]
        norm_num
    · rw [processFrame_invalid_history s1 est now hv] at hr
      by_cases hp : now - s1.lastSound > PAUSE_THRESHOLD_MS
      · rw [if_pos hp] at hr
        exact absurd hr (List.not_mem_nil r)
      · rw [if_neg hp] at hr
        exact of_decide_eq_true (List.mem_filter.mp hr).2
  · norm_num [run, step, applyEvent, processFrame, fireFreeze, smootherUpdate,
      historyAverage, isFrequencyInRange, initialState, SMOOTHING_ALPHA,
      PAUSE_THRESHOLD_MS, FREEZE_ON_SILENCE_MS, List.filter]
  · norm_num [run, step, applyEvent, processFrame, fireFreeze, smootherUpdate,
      historyAverage, isFrequencyInRange, initialState, SMOOTHING_ALPHA,
      PAUSE_THRESHOLD_MS, FREEZE_ON_SILENCE_MS, List.filter]

/-- Witness for C6's invariant at a concrete reading. -/
theorem c6_witness :
    (0 : ℚ) - ((11 / 2 : ℚ), (0 : ℚ)).2 < 3000 :=
  c6_window_invariant.1 initialState 100 0 (11 / 2, 0)
    (by norm_num [step, applyEvent, processFrame, initialState, smootherUpdate,
      isFrequencyInRange, SMOOTHING_ALPHA, PAUSE_THRESHOLD_MS, historyAverage,
      List.filter])


/-- A step from a state with no armed timer is just the event's effect. -/
theorem step_deadline_none (s : SessionState) (e : ℚ × SessionEvent)
    (hfd : s.freezeDeadline = none) :
    step s e = applyEvent s e.1 e.2 := by
  apply step_no_fire
  rintro ⟨d, hd, -⟩
  rw [hfd] at hd
  exact Option.noConfusion hd

/-- Three valid ticks at t = 0, 200, 400 from a fresh session: the history
holds the three smoothed readings, `lastSound = 400`, no timer armed. -/
theorem run_three_valid_ticks (f1 f2 f3 : ℚ)
    (h1 : isFrequencyInRange f1) (h2 : isFrequencyInRange f2)
    (h3 : isFrequencyInRange f3) :
    run initialState [(0, .frame f1), (200, .frame f2), (400, .frame f3)] =
      { smoothed := smootherUpdate f3 (smootherUpdate f2 (smootherUpdate f1 0)),
        detected := smootherUpdate f3 (smootherUpdate f2 (smootherUpdate f1 0)),
        displayed := 0,
        average := (smootherUpdate f1 0 + smootherUpdate f2 (smootherUpdate f1 0) +
          smootherUpdate f3 (smootherUpdate f2 (smootherUpdate f1 0))) / 3,
        history := [(smootherUpdate f1 0, 0),
          (smootherUpdate f2 (smootherUpdate f1 0), 200),
          (smootherUpdate f3 (smootherUpdate f2 (smootherUpdate f1 0)), 400)],
        lastSound := 400, freezeDeadline := none } := by
  have hs1 : step initialState (0, .frame f1) =
      { smoothed := smootherUpdate f1 0, detected := smootherUpdate f1 0,
        displayed := 0, average := smootherUpdate f1 0,
        history := [(smootherUpdate f1 0, 0)], lastSound := 0,
        freezeDeadline := none } := by
    rw [step_deadline_none initialState _ rfl]
    show processFrame initialState f1 0 = _
    rw [processFrame_valid _ _ _ h1]
    norm_num [initialState, historyAverage]
  have hs2 : step
      { smoothed := smootherUpdate f1 0, detected := smootherUpdate f1 0,
        displayed := 0, average := smootherUpdate f1 0,
        history := [(smootherUpdate f1 0, 0)], lastSound := 0,
        freezeDeadline := none } (200, .frame f2) =
      { smoothed := smootherUpdate f2 (smootherUpdate f1 0),
        detected := smootherUpdate f2 (smootherUpdate f1 0),
        displayed := 0,
        average := (smootherUpdate f1 0 + smootherUpdate f2 (smootherUpdate f1 0)) / 2,
        history := [(smootherUpdate f1 0, 0),
          (smootherUpdate f2 (smootherUpdate f1 0), 200)],
        lastSound := 200, freezeDeadline := none } := by
    rw [step_deadline_none _ _ rfl]
    show processFrame _ f2 200 = _
    rw [processFrame_valid _ _ _ h2]
    norm_num [historyAverage]
  have hs3 : step
      { smoothed := smootherUpdate f2 (smootherUpdate f1 0),
        detected := smootherUpdate f2 (smootherUpdate f1 0),
        displayed := 0,
        average := (smootherUpdate f1 0 + smootherUpdate f2 (smootherUpdate f1 0)) / 2,
        history := [(smootherUpdate f1 0, 0),
          (smootherUpdate f2 (smootherUpdate f1 0), 200)],
        lastSound := 200, freezeDeadline := none } (400, .frame f3) =
      { smoothed := smootherUpdate f3 (smootherUpdate f2 (smootherUpdate f1 0)),
        detected := smootherUpdate f3 (smootherUpdate f2 (smootherUpdate f1 0)),
        displayed := 0,
        average := (smootherUpdate f1 0 + smootherUpdate f2 (smootherUpdate f1 0) +
          smootherUpdate f3 (smootherUpdate f2 (smootherUpdate f1 0))) / 3,
        history := [(smootherUpdate f1 0, 0),
          (smootherUpdate f2 (smootherUpdate f1 0), 200),
          (smootherUpdate f3 (smootherUpdate f2 (smootherUpdate f1 0)), 400)],
        lastSound := 400, freezeDeadline := none } := by
    rw [step_deadline_none _ _ rfl]
    show processFrame _ f3 400 = _
    rw [processFrame_valid _ _ _ h3]
    norm_num [historyAverage]
    ring
  show step (step (step initialState (0, .frame f1)) (200, .frame f2)) (400, .frame f3) = _
  rw [hs1, hs2, hs3]

/-- C4, confirmed.  Valid readings at t = 0, 200, 400 ms leave 3 entries in
the history; a tick with no valid sound at t = 1000 ms
(`timeSinceLastSound = 600 > 500`) clears the history entirely and the
rolling average reports no value, although 1000 ms is below the 3000 ms
window length and the freeze timer (armed at t = 1000 for t = 6000) has not
elapsed (the smoothed value is still positive). -/
theorem c4_pause_reset (f1 f2 f3 e : ℚ)
    (h1 : isFrequencyInRange f1) (h2 : isFrequencyInRange f2)
    (h3 : isFrequencyInRange f3) (he : ¬ isFrequencyInRange e) :
    (run initialState
        [(0, .frame f1), (200, .frame f2), (400, .frame f3)]).history.length = 3 ∧
    (run initialState
        [(0, .frame f1), (200, .frame f2), (400, .frame f3), (1000, .frame e)]).history = [] ∧
    (run initialState
        [(0, .frame f1), (200, .frame f2), (400, .frame f3), (1000, .frame e)]).average = 0 ∧
    averageReading (run initialState
        [(0, .frame f1), (200, .frame f2), (400, .frame f3), (1000, .frame e)]) = none ∧
    (run initialState
        [(0, .frame f1), (200, .frame f2), (400, .frame f3), (1000, .frame e)]).freezeDeadline =
      some 6000 ∧
    0 < (run initialState
        [(0, .frame f1), (200, .frame f2), (400, .frame f3), (1000, .frame e)]).smoothed := by
  have H3 := run_three_valid_ticks f1 f2 f3 h1 h2 h3
  have hrun4 : run initialState
      [(0, .frame f1), (200, .frame f2), (400, .frame f3), (1000, .frame e)] =
      processFrame (run initialState
        [(0, .frame f1), (200, .frame f2), (400, .frame f3)]) e 1000 := by
    have hsplit : run initialState
        [(0, .frame f1), (200, .frame f2), (400, .frame f3), (1000, .frame e)] =
        step (run initialState
          [(0, .frame f1), (200, .frame f2), (400, .frame f3)]) (1000, .frame e) := by
      simp [run, List.foldl]
    rw [hsplit, H3, step_deadline_none _ _ rfl]
    rfl
  have hhist : (run initialState
      [(0, .frame f1), (200, .frame f2), (400, .frame f3), (1000, .frame e)]).history = [] := by
    rw [hrun4, processFrame_invalid_history _ _ _ he, H3]
    rw [if_pos]
    norm_num [PAUSE_THRESHOLD_MS]
  have havg : (run initialState
      [(0, .frame f1), (200, .frame f2), (400, .frame f3), (1000, .frame e)]).average = 0 := by
    rw [hrun4, processFrame_invalid_average _ _ _ he, ← hrun4, hhist]
    norm_num [historyAverage]
  refine ⟨by rw [H3]; rfl, hhist, havg, ?_, ?_, ?_⟩
  · rw [averageReading, havg]
    norm_num
  · rw [hrun4, processFrame_invalid_arm _ _ _ he (by rw [H3])]
    norm_num [FREEZE_ON_SILENCE_MS]
  · rw [hrun4, (processFrame_invalid_core _ _ _ he).1, H3]
    have hb1 := h1.1
    have hb2 := h2.1
    have hb3 := h3.1
    simp only [smootherUpdate, SMOOTHING_ALPHA]
    linarith

/-- Witness for C4 at concrete estimates 100, 100, 100 and silence 0. -/
theorem c4_witness :
    isFrequencyInRange (100 : ℚ) ∧ ¬ isFrequencyInRange (0 : ℚ) ∧
      ((run initialState
          [(0, .frame 100), (200, .frame 100), (400, .frame 100)]).history.length = 3 ∧
        (run initialState
          [(0, .frame 100), (200, .frame 100), (400, .frame 100), (1000, .frame 0)]).history = [] ∧
        (run initialState
          [(0, .frame 100), (200, .frame 100), (400, .frame 100), (1000, .frame 0)]).average = 0 ∧
        averageReading (run initialState
          [(0, .frame 100), (200, .frame 100), (400, .frame 100), (1000, .frame 0)]) = none ∧
        (run initialState
          [(0, .frame 100), (200, .frame 100), (400, .frame 100), (1000, .frame 0)]).freezeDeadline =
          some 6000 ∧
        0 < (run initialState
          [(0, .frame 100), (200, .frame 100), (400, .frame 100), (1000, .frame 0)]).smoothed) :=
  ⟨by norm_num [isFrequencyInRange], by norm_num [isFrequencyInRange],
    c4_pause_reset 100 100 100 0 (by norm_num [isFrequencyInRange])
      (by norm_num [isFrequencyInRange]) (by norm_num [isFrequencyInRange])
      (by norm_num [isFrequencyInRange])⟩

/-- Folding `max` from a non-positive seed over non-positive values stays
non-positive. -/
theorem foldl_max_nonpos (l : List ℚ) (a : ℚ) (ha : a ≤ 0)
    (hl : ∀ x ∈ l, x ≤ 0) : l.foldl max a ≤ 0 := by
  induction l generalizing a with
  | nil => exact ha
  | cons x xs ih =>
      rw [List.foldl_cons]
      exact ih (max a x) (max_le ha (hl x (List.mem_cons_self x xs)))
        (fun y hy => hl y (List.mem_cons_of_mem x hy))

/-- An empty buffer with a nonnegative sample rate is coerced to silence:
the NaN RMS comparison fails, every correlation cell stays 0, and the
`maxVal ≤ 0` early return produces 0. -/
theorem findFF_empty_buffer (rate : ℚ) (h : 0 ≤ rate) :
    findFundamentalFrequency [] rate = some 0 := by
  have hcorr : ∀ lag, corrOf [] rate lag = 0 := by
    intro lag
    simp [corrOf, corrAt]
  unfold findFundamentalFrequency
  rw [if_neg (by simp [rmsBelowGate])]
  rw [if_neg (by
    have : (0 : ℤ) ≤ ⌈rate / 80⌉ := Int.ceil_nonneg (by positivity)
    omega)]
  rw [if_pos]
  apply foldl_max_nonpos _ _ (by norm_num)
  intro x hx
  obtain ⟨i, -, hix⟩ := List.mem_map.mp hx
  rw [← hix, hcorr]

/-- A zero sample rate is coerced to silence: `searchSize = 0`, so the
`maxVal` scan never runs and `maxVal = -1 ≤ 0` returns 0. -/
theorem findFF_zero_rate (buf : List ℚ) :
    findFundamentalFrequency buf 0 = some 0 := by
  by_cases hrms : rmsBelowGate buf
  · unfold findFundamentalFrequency
    rw [if_pos hrms]
  · unfold findFundamentalFrequency
    rw [if_neg hrms]
    rw [if_neg (by norm_num)]
    rw [if_pos]
    have hss : searchSizeOf 0 = 0 := by norm_num [searchSizeOf]
    rw [maxValOf, maxValFrom, hss]
    simp

/-- C1, corrected.  A structurally invalid frame is not rejected: an empty
buffer at 44100 Hz and a non-empty, loud buffer at sample rate 0 both come
back as the ordinary silence value `some 0`, indistinguishable from a quiet
frame (the second buffer is far above the RMS gate, so the 0 does not come
from the silence check). -/
theorem c1_counterexample :
    findFundamentalFrequency [] 44100 = some 0 ∧
    findFundamentalFrequency [1, 1, 1, 1] 0 = some 0 ∧
    ¬ rmsBelowGate [1, 1, 1, 1] :=
  ⟨findFF_empty_buffer 44100 (by norm_num), findFF_zero_rate _,
    by norm_num [rmsBelowGate, sumSq]⟩

/-- C1, amended: for a structurally invalid AudioFrame with nonnegative
sample rate — an empty sample buffer, or a zero sample rate — the
pitch-detection entry point silently coerces the input to the normal
silence result 0 instead of rejecting it; only a sample rate at or below
-80 is reported to the caller (as a thrown `RangeError` from
`new Array(searchSize)`). -/
theorem c1_invalid_frames_coerced (buf : List ℚ) (rate : ℚ)
    (h : (buf = [] ∧ 0 ≤ rate) ∨ rate = 0) :
    findFundamentalFrequency buf rate = some 0 := by
  rcases h with ⟨hbuf, hrate⟩ | hrate
  · rw [hbuf]
    exact findFF_empty_buffer rate hrate
  · rw [hrate]
    exact findFF_zero_rate buf

/-- Witness for C1's amended theorem at the empty buffer and 44100 Hz. -/
theorem c1_witness :
    findFundamentalFrequency [] 44100 = some 0 :=
  c1_invalid_frames_coerced [] 44100 (Or.inl ⟨rfl, by norm_num⟩)

/-- A successful `find?` over `range' a n` returns the least index in
`[a, a+n)` satisfying the predicate. -/
theorem find?_range'_eq_some {q : ℕ → Bool} {a n m : ℕ}
    (h : (List.range' a n).find? q = some m) :
    a ≤ m ∧ m < a + n ∧ q m = true ∧ ∀ j, a ≤ j → j < m → q j = false := by
  induction n generalizing a with
  | zero => simp at h
  | succ n ih =>
      rw [List.range'_succ] at h
      by_cases hqa : q a = true
      · rw [List.find?_cons_of_pos _ hqa] at h
        obtain rfl : a = m := by simpa using h
        exact ⟨le_refl a, by omega, hqa, fun j hj hjm => absurd hj (by omega)⟩
      · rw [List.find?_cons_of_neg _ (by simpa using hqa)] at h
        obtain ⟨h1, h2, h3, h4⟩ := ih h
        refine ⟨by omega, by omega, h3, ?_⟩
        intro j hj hjm
        rcases Nat.eq_or_lt_of_le hj with rfl | hlt
        · simpa using hqa
        · exact h4 j hlt hjm

/-- If some index in `[a, a+n)` satisfies the predicate, `find?` over
`range' a n` succeeds. -/
theorem find?_range'_of_mem {q : ℕ → Bool} {a n i : ℕ}
    (ha : a ≤ i) (hi : i < a + n) (hq : q i = true) :
    ∃ m, (List.range' a n).find? q = some m := by
  have hmem : i ∈ List.range' a n := List.mem_range'_1.mpr ⟨ha, hi⟩
  exact Option.isSome_iff_exists.mp (List.find?_isSome.mpr ⟨i, hmem, hq⟩)

/-- A negative `Math.ceil(sampleRate/80)` (clamped search size 0) makes the
`maxVal` scan empty, so `maxVal` keeps its initial value `-1`. -/
theorem maxValOf_of_ceil_neg (buf : List ℚ) (rate : ℚ)
    (h : ⌈rate / 80⌉ < 0) : maxValOf buf rate = -1 := by
  have hss : searchSizeOf rate = 0 := by
    rw [searchSizeOf, Int.toNat_of_nonpos (le_of_lt h)]
  rw [maxValOf, maxValFrom, hss]
  simp

/-- C2, confirmed.  For a buffer that passes the RMS gate and reaches a
positive maximum correlation, whenever some lag in the scan range is a local
maximum (`R[i] > R[i-1]`, `R[i] > R[i+1]`) whose value exceeds
`0.9 × maxVal`, the chosen period is exactly the first such lag in
increasing lag order — every smaller lag fails the test, even if a later
qualifying peak (e.g. at twice the period) is taller — and the detector's
result is the parabolic refinement at that period, not at the global
maximum. -/
theorem c2_first_peak_selection (buf : List ℚ) (rate : ℚ)
    (hrms : ¬ rmsBelowGate buf) (hmax : 0 < maxValOf buf rate)
    (hex : ∃ i : ℕ, searchStartOf buf rate ≤ i ∧ i + 1 < searchSizeOf rate ∧
      corrOf buf rate i > maxValOf buf rate * (9 / 10) ∧
      corrOf buf rate i > corrOf buf rate (i - 1) ∧
      corrOf buf rate i > corrOf buf rate (i + 1)) :
    ∃ p : ℕ,
      periodOf buf rate = (p : ℤ) ∧
      (searchStartOf buf rate ≤ p ∧ p + 1 < searchSizeOf rate ∧
        corrOf buf rate p > maxValOf buf rate * (9 / 10) ∧
        corrOf buf rate p > corrOf buf rate (p - 1) ∧
        corrOf buf rate p > corrOf buf rate (p + 1)) ∧
      (∀ j : ℕ, j < p →
        ¬ (searchStartOf buf rate ≤ j ∧ j + 1 < searchSizeOf rate ∧
          corrOf buf rate j > maxValOf buf rate * (9 / 10) ∧
          corrOf buf rate j > corrOf buf rate (j - 1) ∧
          corrOf buf rate j > corrOf buf rate (j + 1))) ∧
      findFundamentalFrequency buf rate = some (refineAt buf rate p) := by
  obtain ⟨i, hia, hib, hi1, hi2, hi3⟩ := hex
  have hq : peakQualifies (corrOf buf rate) (maxValOf buf rate * (9 / 10)) i = true := by
    simp only [peakQualifies, Bool.and_eq_true, decide_eq_true_eq]
    exact ⟨⟨hi1, hi2⟩, hi3⟩
  have hab : searchStartOf buf rate ≤ searchSizeOf rate - 1 := by omega
  have hmem : i < searchStartOf buf rate +
      (searchSizeOf rate - 1 - searchStartOf buf rate) := by omega
  obtain ⟨m, hm⟩ := find?_range'_of_mem hia hmem hq
  have hfp : firstPeak (corrOf buf rate) (maxValOf buf rate * (9 / 10))
      (searchStartOf buf rate) (searchSizeOf rate - 1) = some m := hm
  obtain ⟨hma, hmb, hqm, hleast⟩ := find?_range'_eq_some hm
  have hqm' : corrOf buf rate m > maxValOf buf rate * (9 / 10) ∧
      corrOf buf rate m > corrOf buf rate (m - 1) ∧
      corrOf buf rate m > corrOf buf rate (m + 1) := by
    have := hqm
    simp only [peakQualifies, Bool.and_eq_true, decide_eq_true_eq] at this
    exact ⟨this.1.1, this.1.2, this.2⟩
  have hm0 : m ≠ 0 := by
    intro h0
    rw [h0] at hqm'
    exact lt_irrefl _ hqm'.2.1
  have hper : periodOf buf rate = (m : ℤ) := by
    unfold periodOf
    rw [hfp]
  refine ⟨m, hper, ⟨hma, by omega, hqm'.1, hqm'.2.1, hqm'.2.2⟩, ?_, ?_⟩
  · intro j hjm ⟨hja, hjb, hj1, hj2, hj3⟩
    have hqj : peakQualifies (corrOf buf rate) (maxValOf buf rate * (9 / 10)) j = true := by
      simp only [peakQualifies, Bool.and_eq_true, decide_eq_true_eq]
      exact ⟨⟨hj1, hj2⟩, hj3⟩
    rw [hleast j hja hjm] at hqj
    exact Bool.false_ne_true hqj
  · unfold findFundamentalFrequency
    rw [if_neg hrms]
    rw [if_neg (fun hc => absurd (maxValOf_of_ceil_neg buf rate hc ▸ hmax) (by norm_num))]
    rw [if_neg (not_le.mpr hmax)]
    rw [hper]
    rw [if_neg (by exact_mod_cast fun h => hm0 (by omega))]
    simp

/-- Search size at the 800 Hz sample rate used in the concrete examples. -/
theorem searchSize_800 : searchSizeOf 800 = 10 := by
  rw [searchSizeOf, show ⌈(800 : ℚ) / 80⌉ = 10 by norm_num]
  rfl

/-- Lag lower bound at the 800 Hz sample rate. -/
theorem minPeriod_800 : minPeriodOf 800 = 4 := by
  rw [minPeriodOf]
  norm_num

/-- The gates of `findFundamentalFrequency` pass and the chosen period is
positive, so the result is the refinement at that period. -/
theorem findFF_eq_refineAt (buf : List ℚ) (rate : ℚ)
    (hrms : ¬ rmsBelowGate buf) (hmax : 0 < maxValOf buf rate)
    (T0 : ℕ) (hT : periodOf buf rate = (T0 : ℤ)) (hpos : 0 < T0) :
    findFundamentalFrequency buf rate = some (refineAt buf rate T0) := by
  unfold findFundamentalFrequency
  rw [if_neg hrms]
  rw [if_neg (fun hc => absurd (maxValOf_of_ceil_neg buf rate hc ▸ hmax) (by norm_num))]
  rw [if_neg (not_le.mpr hmax)]
  rw [hT]
  rw [if_neg (not_le.mpr (by exact_mod_cast hpos))]
  simp

/-- Strictly inside the array, the code's interpolation agrees with the
spec formula. -/
theorem refineAt_eq_spec (buf : List ℚ) (rate : ℚ) (T0 : ℕ)
    (hpos : 0 < T0) (hin : T0 + 1 < searchSizeOf rate) :
    refineAt buf rate T0 = specRefineC3 (corrOf buf rate) rate T0 := by
  simp only [refineAt, specRefineC3]
  rw [if_pos (⟨by exact_mod_cast hpos, by omega⟩ :
    0 < (T0 : ℤ) ∧ (T0 : ℤ) < (searchSizeOf rate : ℤ) - 1)]
  by_cases hden : 2 * (2 * corrOf buf rate T0 - corrOf buf rate (T0 + 1) -
      corrOf buf rate (T0 - 1)) = 0
  · rw [if_neg (by simpa using hden), if_pos hden]
  · rw [if_pos hden, if_neg hden]

/-- At or beyond the array edge the interpolation guard fails and the raw
`sampleRate / T0` is returned. -/
theorem refineAt_eq_edge (buf : List ℚ) (rate : ℚ) (T0 : ℕ)
    (hout : searchSizeOf rate ≤ T0 + 1) :
    refineAt buf rate T0 = rate / (T0 : ℚ) := by
  simp only [refineAt]
  rw [if_neg]
  rintro ⟨-, h2⟩
  have : (T0 : ℤ) + 1 < (searchSizeOf rate : ℤ) := by omega
  have : T0 + 1 < searchSizeOf rate := by exact_mod_cast this
  omega

/-- Chosen period of the edge-case example buffer: no local maximum clears
the 90% threshold, and the fallback global maximum sits at the last cell,
lag 9 = searchSize - 1. -/
theorem periodOf_edge_example :
    periodOf [1, 0, 0, 0, 0, 0, 0, 0, 1/2, 1] 800 = 9 := by
  norm_num [periodOf, firstPeak, peakQualifies, fallbackPeriod, fallbackScan,
    maxValOf, maxValFrom, searchStartOf, firstDip, corrOf, corrAt, minPeriodOf,
    searchSizeOf, List.range', List.range, List.range.loop, List.find?,
    List.getD, List.get?]

/-- Detector output on the edge-case example: interpolation is skipped. -/
theorem findFF_edge_example :
    findFundamentalFrequency [1, 0, 0, 0, 0, 0, 0, 0, 1/2, 1] 800 = some (800 / 9) := by
  norm_num [findFundamentalFrequency, rmsBelowGate, sumSq, periodOf, firstPeak,
    peakQualifies, fallbackPeriod, fallbackScan, maxValOf, maxValFrom,
    searchStartOf, firstDip, corrOf, corrAt, minPeriodOf, searchSizeOf, refineAt,
    List.range', List.range, List.range.loop, List.find?, List.getD, List.get?]
  rw [show Int.toNat 9 = 9 from rfl]
  norm_num

/-- C3, corrected.  On the buffer `[1,0,0,0,0,0,0,0,1/2,1]` at 800 Hz the
chosen lag is `T0 = 9 = searchSize - 1` with positive correlation `R[9] = 1`;
the claim's formula (right neighbour missing at the array edge, treated
as 0) gives the corrected lag `9 - 1/6` and hence `4800/53`, but the code
skips interpolation entirely at the edge and returns `800/9 ≠ 4800/53`. -/
theorem c3_counterexample :
    periodOf [1, 0, 0, 0, 0, 0, 0, 0, 1/2, 1] 800 = 9 ∧
    corrOf [1, 0, 0, 0, 0, 0, 0, 0, 1/2, 1] 800 9 = 1 ∧
    specRefineC3 (corrOf [1, 0, 0, 0, 0, 0, 0, 0, 1/2, 1] 800) 800 9 = 4800 / 53 ∧
    findFundamentalFrequency [1, 0, 0, 0, 0, 0, 0, 0, 1/2, 1] 800 = some (800 / 9) ∧
    (800 / 9 : ℚ) ≠ 4800 / 53 := by
  refine ⟨periodOf_edge_example, ?_, ?_, findFF_edge_example, by norm_num⟩
  · norm_num [corrOf, corrAt, minPeriodOf, searchSizeOf, List.range,
      List.range.loop, List.getD, List.get?]
  · norm_num [specRefineC3, corrOf, corrAt, minPeriodOf, searchSizeOf,
      List.range, List.range.loop, List.getD, List.get?]

/-- C3, amended.  For a chosen positive period `T0`, the detector applies
the claim's parabolic-interpolation formula only when `T0` lies strictly
inside the array (`T0 + 1 < searchSize`, both neighbours present); when the
chosen lag is at the array edge (`T0 + 1 ≥ searchSize`, reachable through
the fallback), interpolation is skipped entirely and `sampleRate / T0` is
returned instead of using a missing neighbour as 0. -/
theorem c3_interpolation (buf : List ℚ) (rate : ℚ)
    (hrms : ¬ rmsBelowGate buf) (hmax : 0 < maxValOf buf rate)
    (T0 : ℕ) (hT : periodOf buf rate = (T0 : ℤ)) (hpos : 0 < T0) :
    (T0 + 1 < searchSizeOf rate →
      findFundamentalFrequency buf rate =
        some (specRefineC3 (corrOf buf rate) rate T0)) ∧
    (searchSizeOf rate ≤ T0 + 1 →
      findFundamentalFrequency buf rate = some (rate / (T0 : ℚ))) := by
  constructor
  · intro hin
    rw [findFF_eq_refineAt buf rate hrms hmax T0 hT hpos,
      refineAt_eq_spec buf rate T0 hpos hin]
  · intro hout
    rw [findFF_eq_refineAt buf rate hrms hmax T0 hT hpos,
      refineAt_eq_edge buf rate T0 hout]

/-- Witness for C3's amended theorem on the edge-case buffer. -/
theorem c3_witness :
    findFundamentalFrequency [1, 0, 0, 0, 0, 0, 0, 0, 1/2, 1] 800 = some (800 / 9) :=
  (c3_interpolation [1, 0, 0, 0, 0, 0, 0, 0, 1/2, 1] 800
    (by norm_num [rmsBelowGate, sumSq])
    (by norm_num [maxValOf, maxValFrom, searchStartOf, firstDip, corrOf, corrAt,
      minPeriodOf, searchSizeOf, List.range', List.range, List.range.loop,
      List.find?, List.getD, List.get?])
    9 periodOf_edge_example (by norm_num)).2
    (by rw [searchSize_800])

/-- Scan start on the two-peak example buffer. -/
theorem searchStart_wbuf :
    searchStartOf [1, 0, 0, 0, 11/20, 0, 0, 0, 1, 0, 0, 0, 11/20, 0, 0, 0, 1] 800 = 4 := by
  norm_num [searchStartOf, firstDip, corrOf, corrAt, minPeriodOf, searchSizeOf,
    List.range', List.range, List.range.loop, List.find?, List.getD, List.get?]
  rfl

/-- Maximum correlation on the two-peak example buffer: the taller peak at
lag 8 (twice the period of the peak at lag 4). -/
theorem maxVal_wbuf :
    maxValOf [1, 0, 0, 0, 11/20, 0, 0, 0, 1, 0, 0, 0, 11/20, 0, 0, 0, 1] 800 = 921 / 400 := by
  norm_num [maxValOf, maxValFrom, searchStartOf, firstDip, corrOf, corrAt,
    minPeriodOf, searchSizeOf, List.range', List.range, List.range.loop,
    List.find?, List.getD, List.get?]

/-- Witness for C2 on a buffer whose autocorrelation has a local maximum
`R[4] = 11/5` and a taller one `R[8] = 921/400 = maxVal`; both clear the
90% threshold, and the detector resolves to the first qualifying peak. -/
theorem c2_witness :
    ∃ p : ℕ,
      periodOf [1, 0, 0, 0, 11/20, 0, 0, 0, 1, 0, 0, 0, 11/20, 0, 0, 0, 1] 800 = (p : ℤ) ∧
      findFundamentalFrequency [1, 0, 0, 0, 11/20, 0, 0, 0, 1, 0, 0, 0, 11/20, 0, 0, 0, 1] 800 =
        some (refineAt [1, 0, 0, 0, 11/20, 0, 0, 0, 1, 0, 0, 0, 11/20, 0, 0, 0, 1] 800 p) := by
  obtain ⟨p, h1, -, -, h4⟩ :=
    c2_first_peak_selection [1, 0, 0, 0, 11/20, 0, 0, 0, 1, 0, 0, 0, 11/20, 0, 0, 0, 1] 800
      (by norm_num [rmsBelowGate, sumSq])
      (by rw [maxVal_wbuf]; norm_num)
      ⟨4, by rw [searchStart_wbuf], by rw [searchSize_800]; norm_num,
        by rw [maxVal_wbuf]
           norm_num [corrOf, corrAt, minPeriodOf, searchSizeOf, List.range,
             List.range.loop, List.getD, List.get?],
        by norm_num [corrOf, corrAt, minPeriodOf, searchSizeOf, List.range,
             List.range.loop, List.getD, List.get?],
        by norm_num [corrOf, corrAt, minPeriodOf, searchSizeOf, List.range,
             List.range.loop, List.getD, List.get?]⟩
  exact ⟨p, h1, h4⟩

/-- Unfolding a run by its last event. -/
theorem run_snoc (s0 : SessionState) (evs : List (ℚ × SessionEvent))
    (ev : ℚ × SessionEvent) :
    run s0 (evs ++ [ev]) = step (run s0 evs) ev := by
  rw [run, run, List.foldl_append]
  rfl

/-- The display tick never touches the freeze timer. -/
theorem applyEvent_displayTick_deadline (s : SessionState) (t : ℚ) :
    (applyEvent s t SessionEvent.displayTick).freezeDeadline = s.freezeDeadline := by
  rw [applyEvent]
  split_ifs <;> rfl

/-- Provenance of an armed freeze timer: whenever a run from a state with no
armed timer ends with a timer armed for `d`, the timer was armed by an
invalid frame at time `d - 5000`, and every later frame in the run carried
an invalid estimate. -/
theorem freeze_arm_provenance (s0 : SessionState) (h0 : s0.freezeDeadline = none)
    (evs : List (ℚ × SessionEvent)) :
    ∀ d : ℚ, (run s0 evs).freezeDeadline = some d →
      ∃ pre t0 e post, evs = pre ++ (t0, SessionEvent.frame e) :: post ∧
        ¬ isFrequencyInRange e ∧ d = t0 + FREEZE_ON_SILENCE_MS ∧
        ∀ p ∈ post, ∀ e' : ℚ, p.2 = SessionEvent.frame e' → ¬ isFrequencyInRange e' := by
  induction evs using List.reverseRecOn with
  | nil =>
      intro d hd
      rw [run, List.foldl_nil, h0] at hd
      exact Option.noConfusion hd
  | append_singleton evs ev ih =>
      intro d hd
      rw [run_snoc] at hd
      obtain ⟨t, evk⟩ := ev
      cases evk with
      | frame e =>
          by_cases hv : isFrequencyInRange e
          · exfalso
            obtain ⟨s1, hstep, -, -, -⟩ :=
              step_frame_as_processFrame (run s0 evs) t e
            rw [hstep, processFrame_valid s1 e t hv] at hd
            exact Option.noConfusion hd
          · by_cases hdue : freezeDue (run s0 evs) t
            · obtain ⟨dd, hdd, hle⟩ := hdue
              rw [step_fire (run s0 evs) t _ dd hdd hle] at hd
              rw [show applyEvent (fireFreeze (run s0 evs)) t (SessionEvent.frame e) =
                  processFrame (fireFreeze (run s0 evs)) e t from rfl] at hd
              rw [processFrame_invalid_arm _ _ _ hv rfl] at hd
              injection hd with hd'
              exact ⟨evs, t, e, [], rfl, hv, hd'.symm, by simp⟩
            · rw [step_no_fire (run s0 evs) (t, SessionEvent.frame e) hdue] at hd
              rw [show applyEvent (run s0 evs) t (SessionEvent.frame e) =
                  processFrame (run s0 evs) e t from rfl] at hd
              cases hfd : (run s0 evs).freezeDeadline with
              | none =>
                  rw [processFrame_invalid_arm _ _ _ hv hfd] at hd
                  injection hd with hd'
                  exact ⟨evs, t, e, [], rfl, hv, hd'.symm, by simp⟩
              | some d0 =>
                  rw [processFrame_invalid_keep _ _ _ d0 hv hfd] at hd
                  injection hd with hd'
                  obtain ⟨pre, t0, e0, post, hsplit, he0, hd0, hpost⟩ := ih d0 hfd
                  refine ⟨pre, t0, e0, post ++ [(t, SessionEvent.frame e)],
                    by rw [hsplit]; simp, he0, by rw [← hd']; exact hd0, ?_⟩
                  intro p hp e' hp2
                  rcases List.mem_append.mp hp with h1 | h2
                  · exact hpost p h1 e' hp2
                  · have hpe : p = (t, SessionEvent.frame e) := List.mem_singleton.mp h2
                    rw [hpe] at hp2
                    cases hp2
                    exact hv
      | displayTick =>
          by_cases hdue : freezeDue (run s0 evs) t
          · exfalso
            obtain ⟨dd, hdd, hle⟩ := hdue
            rw [step_fire (run s0 evs) t _ dd hdd hle,
              applyEvent_displayTick_deadline] at hd
            exact Option.noConfusion hd
          · rw [step_no_fire (run s0 evs) (t, SessionEvent.displayTick) hdue,
              applyEvent_displayTick_deadline] at hd
            obtain ⟨pre, t0, e0, post, hsplit, he0, hd0, hpost⟩ := ih d hd
            refine ⟨pre, t0, e0, post ++ [(t, SessionEvent.displayTick)],
              by rw [hsplit]; simp, he0, hd0, ?_⟩
            intro p hp e' hp2
            rcases List.mem_append.mp hp with h1 | h2
            · exact hpost p h1 e' hp2
            · have hpe : p = (t, SessionEvent.displayTick) := List.mem_singleton.mp h2
              rw [hpe] at hp2
              exact SessionEvent.noConfusion hp2


/-- Any step is the event applied either directly or after the freeze
callback. -/
theorem step_cases (s : SessionState) (t : ℚ) (evk : SessionEvent) :
    step s (t, evk) = applyEvent s t evk ∨
    step s (t, evk) = applyEvent (fireFreeze s) t evk := by
  unfold step
  cases s.freezeDeadline with
  | none => exact Or.inl rfl
  | some d =>
      by_cases h : d ≤ t
      · refine Or.inr ?_
        show applyEvent (if d ≤ t then fireFreeze s else s) t evk =
          applyEvent (fireFreeze s) t evk
        rw [if_pos h]
      · refine Or.inl ?_
        show applyEvent (if d ≤ t then fireFreeze s else s) t evk =
          applyEvent s t evk
        rw [if_neg h]

/-- The smoother value stays nonnegative under any event. -/
theorem applyEvent_smoothed_nonneg (s : SessionState) (t : ℚ)
    (evk : SessionEvent) (h : 0 ≤ s.smoothed) :
    0 ≤ (applyEvent s t evk).smoothed := by
  cases evk with
  | frame e =>
      rw [show applyEvent s t (SessionEvent.frame e) = processFrame s e t from rfl]
      by_cases hv : isFrequencyInRange e
      · rw [processFrame_valid s e t hv]
        have h80 := hv.1
        have hα : SMOOTHING_ALPHA = 11 / 200 := rfl
        simp only [smootherUpdate, hα]
        linarith
      · rw [(processFrame_invalid_core s e t hv).1]
        exact h
  | displayTick =>
      rw [applyEvent]
      split_ifs <;> exact h

/-- C5, confirmed.  While Listening: (1) an invalid tick with no armed
timer arms a single freeze timer for `now + 5000` and leaves the instant,
displayed and smoother values untouched; (2) an invalid tick with a timer
armed and not yet due changes neither the timer nor those values (a single
timer, never re-armed); (3) a valid in-band estimate arriving before expiry
cancels the armed timer immediately, the smoother taking its ordinary
update and the stable display staying untouched; (4) the smoother value stays
nonnegative under every step (an invariant of all reachable states), and a
step whose timer is not due never zeroes a positive instant, displayed or
smoother value; and
(5) whenever the freeze timer fires at time `t` (zeroing those values), it
was armed by an invalid frame at some `t0 ≤ t - 5000` and every frame since
then carried an invalid estimate — so the outputs are forced to 0 only at
or after 5000 ms of continuous absence of valid estimates, never earlier. -/
theorem c5_freeze_semantics :
    (∀ (s : SessionState) (t e : ℚ), ¬ isFrequencyInRange e →
      s.freezeDeadline = none →
      ((step s (t, .frame e)).freezeDeadline = some (t + FREEZE_ON_SILENCE_MS) ∧
       (step s (t, .frame e)).smoothed = s.smoothed ∧
       (step s (t, .frame e)).detected = s.detected ∧
       (step s (t, .frame e)).displayed = s.displayed)) ∧
    (∀ (s : SessionState) (t e d : ℚ), ¬ isFrequencyInRange e →
      s.freezeDeadline = some d → ¬ d ≤ t →
      ((step s (t, .frame e)).freezeDeadline = some d ∧
       (step s (t, .frame e)).smoothed = s.smoothed ∧
       (step s (t, .frame e)).detected = s.detected ∧
       (step s (t, .frame e)).displayed = s.displayed)) ∧
    (∀ (s : SessionState) (t e d : ℚ), isFrequencyInRange e →
      s.freezeDeadline = some d → ¬ d ≤ t →
      ((step s (t, .frame e)).freezeDeadline = none ∧
       (step s (t, .frame e)).smoothed = smootherUpdate e s.smoothed ∧
       (step s (t, .frame e)).displayed = s.displayed)) ∧
    (∀ (s : SessionState) (ev : ℚ × SessionEvent), 0 ≤ s.smoothed →
      0 ≤ (step s ev).smoothed ∧
      (¬ freezeDue s ev.1 →
        ((0 < s.smoothed → 0 < (step s ev).smoothed) ∧
         (0 < s.detected → 0 < (step s ev).detected) ∧
         (0 < s.displayed → 0 < (step s ev).displayed)))) ∧
    (∀ s0 : SessionState, s0.freezeDeadline = none →
      ∀ (evs : List (ℚ × SessionEvent)) (t : ℚ), freezeDue (run s0 evs) t →
        ∃ pre t0 e post, evs = pre ++ (t0, SessionEvent.frame e) :: post ∧
          ¬ isFrequencyInRange e ∧ t0 + FREEZE_ON_SILENCE_MS ≤ t ∧
          ∀ p ∈ post, ∀ e' : ℚ, p.2 = SessionEvent.frame e' →
            ¬ isFrequencyInRange e') := by
  refine ⟨?_, ?_, ?_, ?_, ?_⟩
  · intro s t e hv hfd
    have hnd : ¬ freezeDue s t := by
      rintro ⟨d, hd, -⟩
      rw [hfd] at hd
      exact Option.noConfusion hd
    rw [step_no_fire s (t, .frame e) hnd]
    rw [show applyEvent s t (SessionEvent.frame e) = processFrame s e t from rfl]
    obtain ⟨c1, c2, c3, c4⟩ := processFrame_invalid_core s e t hv
    exact ⟨processFrame_invalid_arm s e t hv hfd, c1, c2, c3⟩
  · intro s t e d hv hfd hlt
    have hnd : ¬ freezeDue s t := by
      rintro ⟨d', hd', hle'⟩
      rw [hfd] at hd'
      injection hd' with h
      exact hlt (h ▸ hle')
    rw [step_no_fire s (t, .frame e) hnd]
    rw [show applyEvent s t (SessionEvent.frame e) = processFrame s e t from rfl]
    obtain ⟨c1, c2, c3, c4⟩ := processFrame_invalid_core s e t hv
    exact ⟨processFrame_invalid_keep s e t d hv hfd, c1, c2, c3⟩
  · intro s t e d hv hfd hlt
    have hnd : ¬ freezeDue s t := by
      rintro ⟨d', hd', hle'⟩
      rw [hfd] at hd'
      injection hd' with h
      exact hlt (h ▸ hle')
    rw [step_no_fire s (t, .frame e) hnd]
    rw [show applyEvent s t (SessionEvent.frame e) = processFrame s e t from rfl]
    rw [processFrame_valid s e t hv]
    exact ⟨rfl, rfl, rfl⟩
  · intro s ev hnn
    obtain ⟨t, evk⟩ := ev
    constructor
    · rcases step_cases s t evk with hc | hc <;> rw [hc]
      · exact applyEvent_smoothed_nonneg s t evk hnn
      · exact applyEvent_smoothed_nonneg (fireFreeze s) t evk (le_refl 0)
    · intro hnd
      rw [step_no_fire s (t, evk) hnd]
      cases evk with
      | frame e =>
          rw [show applyEvent s t (SessionEvent.frame e) = processFrame s e t from rfl]
          by_cases hv : isFrequencyInRange e
          · rw [processFrame_valid s e t hv]
            have h80 := hv.1
            have hα : SMOOTHING_ALPHA = 11 / 200 := rfl
            refine ⟨?_, ?_, ?_⟩ <;> intro hp <;>
              simp only [smootherUpdate, hα] <;> linarith
          · obtain ⟨c1, c2, c3, -⟩ := processFrame_invalid_core s e t hv
            rw [c1, c2, c3]
            exact ⟨id, id, id⟩
      | displayTick =>
          rw [applyEvent]
          split_ifs with h1
          · exact ⟨fun h => h, fun h => h, fun _ => by linarith⟩
          · exact ⟨id, id, id⟩
  · intro s0 h0 evs t hdue
    obtain ⟨d, hd, hle⟩ := hdue
    obtain ⟨pre, t0, e, post, hsplit, he, hd0, hpost⟩ :=
      freeze_arm_provenance s0 h0 evs d hd
    exact ⟨pre, t0, e, post, hsplit, he, by rw [← hd0]; exact hle, hpost⟩

/-- Witness for C5: arming at an invalid frame at t = 0 from the fresh
state, and a fire at t = 5000 whose provenance is that arming frame. -/
theorem c5_witness :
    ¬ isFrequencyInRange (0 : ℚ) ∧ initialState.freezeDeadline = none ∧
      ((step initialState ((0 : ℚ), .frame 0)).freezeDeadline =
        some (0 + FREEZE_ON_SILENCE_MS) ∧
       (step initialState ((0 : ℚ), .frame 0)).smoothed = initialState.smoothed ∧
       (step initialState ((0 : ℚ), .frame 0)).detected = initialState.detected ∧
       (step initialState ((0 : ℚ), .frame 0)).displayed = initialState.displayed) ∧
      (∃ pre t0 e post,
        [((0 : ℚ), SessionEvent.frame 0)] = pre ++ (t0, SessionEvent.frame e) :: post ∧
        ¬ isFrequencyInRange e ∧ t0 + FREEZE_ON_SILENCE_MS ≤ 5000 ∧
        ∀ p ∈ post, ∀ e' : ℚ, p.2 = SessionEvent.frame e' → ¬ isFrequencyInRange e') := by
  have hv : ¬ isFrequencyInRange (0 : ℚ) := by norm_num [isFrequencyInRange]
  refine ⟨hv, rfl, c5_freeze_semantics.1 initialState 0 0 hv rfl, ?_⟩
  apply c5_freeze_semantics.2.2.2.2 initialState rfl [((0 : ℚ), SessionEvent.frame 0)] 5000
  refine ⟨0 + FREEZE_ON_SILENCE_MS, ?_, by norm_num [FREEZE_ON_SILENCE_MS]⟩
  have hrun : run initialState [((0 : ℚ), SessionEvent.frame 0)] =
      processFrame initialState 0 0 := by
    rw [run, List.foldl_cons, List.foldl_nil, step_deadline_none initialState _ rfl]
    rfl
  rw [hrun]
  exact processFrame_invalid_arm initialState 0 0 hv rfl

/-- JS `Math.round` of an exact integer. -/
theorem jsRound_intCast (m : ℤ) : jsRound (m : ℝ) = m := by
  rw [jsRound, Int.floor_eq_iff]
  constructor
  · linarith
  · linarith

/-- Reading a list at the index `indexOf` found gives the element back, and
the found index is nonnegative. -/
theorem jsAt_jsIndexOf (l : List String) (s : String) (h : s ∈ l) :
    0 ≤ jsIndexOf l s ∧ jsAt l (jsIndexOf l s) = some s := by
  induction l with
  | nil => exact absurd h (List.not_mem_nil s)
  | cons a t ih =>
      by_cases ha : a = s
      · refine ⟨by rw [jsIndexOf, if_pos ha], ?_⟩
        rw [jsIndexOf, if_pos ha, jsAt, if_pos (le_refl 0)]
        rw [show (0 : ℤ).toNat = 0 from rfl, List.get?_cons_zero, ha]
      · have hmem : s ∈ t := by
          rcases List.mem_cons.mp h with h1 | h1
          · exact absurd h1.symm ha
          · exact h1
        obtain ⟨h0, hat⟩ := ih hmem
        have hne : jsIndexOf t s ≠ -1 := by omega
        have hstep : jsIndexOf (a :: t) s = jsIndexOf t s + 1 := by
          rw [jsIndexOf, if_neg ha]
          simp only [if_neg hne]
        refine ⟨by omega, ?_⟩
        rw [hstep, jsAt, if_pos (by omega : (0 : ℤ) ≤ jsIndexOf t s + 1)]
        rw [show (jsIndexOf t s + 1).toNat = (jsIndexOf t s).toNat + 1 by omega]
        rw [List.get?_cons_succ]
        rw [jsAt, if_pos h0] at hat
        exact hat

/-- Indexing is a left inverse of lookup on the (duplicate-free) pitch-class
table. -/
theorem jsIndexOf_get_NOTE_NAMES :
    ∀ i : Fin NOTE_NAMES.length,
      jsIndexOf NOTE_NAMES (NOTE_NAMES.get i) = ((i : ℕ) : ℤ) := by
  decide

/-- Floor of an integer division pattern by 12. -/
theorem floor_div12 (q r : ℤ) (h0 : 0 ≤ r) (h12 : r < 12) :
    ⌊((12 * q + r : ℤ) : ℝ) / 12⌋ = q := by
  rw [Int.floor_eq_iff]
  push_cast
  constructor
  · rw [le_div_iff₀ (by norm_num : (0:ℝ) < 12)]
    have : ((r : ℝ)) ≥ 0 := by exact_mod_cast h0
    linarith
  · rw [div_lt_iff₀ (by norm_num : (0:ℝ) < 12)]
    have : ((r : ℝ)) < 12 := by exact_mod_cast h12
    linarith

/-- The ideal note frequencies are positive. -/
theorem notePow_pos (x : ℝ) : 0 < 440 * (2 : ℝ) ^ x :=
  mul_pos (by norm_num) (Real.rpow_pos_of_pos (by norm_num) x)

/-- The note number computed from an exact note frequency is exactly the
note's integer number (relative to A4 = 57). -/
theorem noteNumber_recover (n : ℤ) :
    12 * (Real.log ((440 * (2 : ℝ) ^ (((n : ℝ) - 57) / 12)) / 440) / Real.log 2) =
      (n : ℝ) - 57 := by
  rw [mul_comm (440 : ℝ), mul_div_assoc, div_self (by norm_num : (440:ℝ) ≠ 0), mul_one]
  rw [show Real.log ((2:ℝ) ^ (((n:ℝ) - 57)/12)) / Real.log 2 =
      Real.logb 2 ((2:ℝ) ^ (((n:ℝ) - 57)/12)) from rfl]
  rw [Real.logb_rpow (by norm_num) (by norm_num)]
  ring

/-- Cents of a frequency against the ideal note `n`: `100` times the
difference between the real-valued note number and `n - 57`. -/
theorem cents_eq (f : ℝ) (hf : 0 < f) (n : ℤ) :
    1200 * Real.logb 2 (f / (440 * (2 : ℝ) ^ (((n : ℝ) - 57) / 12))) =
      100 * (12 * Real.logb 2 (f / 440) - ((n : ℝ) - 57)) := by
  have htpos : (0 : ℝ) < 440 * (2 : ℝ) ^ (((n : ℝ) - 57) / 12) := notePow_pos _
  rw [Real.logb_div (ne_of_gt hf) (ne_of_gt htpos)]
  rw [Real.logb_mul (by norm_num) (ne_of_gt (Real.rpow_pos_of_pos (by norm_num) _))]
  rw [Real.logb_rpow (by norm_num) (by norm_num)]
  rw [Real.logb_div (ne_of_gt hf) (by norm_num)]
  ring

/-- C7, confirmed.  For every pitch-class name and nonnegative octave
(covering the plausible vocal range), feeding the note's target frequency
back into the note mapper recovers the same note with a cents deviation of
exactly 0 in real arithmetic. -/
theorem c7_note_roundtrip (name : String) (octave : ℤ)
    (hmem : name ∈ NOTE_NAMES) (hoct : 0 ≤ octave) :
    ∃ d : NoteDetails,
      frequencyToNoteDetails (getFrequencyForNote (some name) octave) = some d ∧
      d.noteName = some name ∧ d.octave = octave ∧ d.cents = 0 := by
  obtain ⟨hk0, hat⟩ := jsAt_jsIndexOf NOTE_NAMES name hmem
  set k := jsIndexOf NOTE_NAMES name with hk
  have hklen : k < 12 := by
    by_contra hge
    push_neg at hge
    rw [jsAt, if_pos hk0] at hat
    rw [List.get?_eq_none.mpr (by
      show NOTE_NAMES.length ≤ k.toNat
      have hlen : NOTE_NAMES.length = 12 := rfl
      omega)] at hat
    exact Option.noConfusion hat
  set f := getFrequencyForNote (some name) octave with hf
  set n : ℤ := k + octave * 12 with hn
  have hfval : f = 440 * (2 : ℝ) ^ (((n : ℝ) - 57) / 12) := rfl
  have hfpos : 0 < f := hfval ▸ notePow_pos _
  have hfne : f ≠ 0 := ne_of_gt hfpos
  have hn0 : 0 ≤ n := by omega
  have hν : noteNumberOf f = (n : ℝ) - 57 := by
    rw [noteNumberOf, hfval]
    exact noteNumber_recover n
  have hround : roundedNoteNumberOf f = n := by
    rw [roundedNoteNumberOf, hν,
      show ((n : ℝ) - 57) = ((n - 57 : ℤ) : ℝ) by push_cast; ring,
      jsRound_intCast]
    ring
  have hidx : noteIndexOf f = k := by
    rw [noteIndexOf, hround, Int.tmod_eq_emod hn0 (by norm_num)]
    omega
  have hoct' : octaveOf f = octave := by
    rw [octaveOf, hround, show n = 12 * octave + k by omega]
    exact floor_div12 octave k hk0 hklen
  have hname : noteNameOf f = some name := by
    rw [noteNameOf, hidx]
    exact hat
  have htgt : targetFrequencyOf f = f := by
    rw [targetFrequencyOf, hname, hoct']
  rw [frequencyToNoteDetails, if_neg hfne]
  refine ⟨_, rfl, hname, hoct', ?_⟩
  show 1200 * Real.logb 2 (f / targetFrequencyOf f) = 0
  rw [htgt, div_self hfne, Real.logb_one, mul_zero]

/-- Witness for C7 at A4 (440 Hz). -/
theorem c7_witness :
    "A" ∈ NOTE_NAMES ∧ (0 : ℤ) ≤ 4 ∧
      ∃ d : NoteDetails,
        frequencyToNoteDetails (getFrequencyForNote (some "A") 4) = some d ∧
        d.noteName = some "A" ∧ d.octave = 4 ∧ d.cents = 0 :=
  ⟨by decide, by norm_num,
    c7_note_roundtrip "A" 4 (by decide) (by norm_num)⟩

/-- The base-2 logarithm of `1/8`. -/
theorem logb_one_eighth : Real.logb 2 (1 / 8 : ℝ) = -3 := by
  rw [show (1 / 8 : ℝ) = (2 : ℝ) ^ (-3 : ℝ) by
    rw [Real.rpow_neg (by norm_num), show ((3 : ℝ)) = ((3 : ℕ) : ℝ) by norm_num,
      Real.rpow_natCast]
    norm_num]
  exact Real.logb_rpow (by norm_num) (by norm_num)

/-- In the 80-200 Hz band, the real-valued note number lies strictly
between -36 and 0. -/
theorem noteNumberOf_bounds (f : ℝ) (h80 : 80 ≤ f) (h200 : f ≤ 200) :
    -36 < noteNumberOf f ∧ noteNumberOf f < 0 := by
  have hfpos : (0 : ℝ) < f := by linarith
  have hq : noteNumberOf f = 12 * Real.logb 2 (f / 440) := rfl
  constructor
  · have h18 : (1 / 8 : ℝ) < f / 440 := by
      rw [lt_div_iff₀ (by norm_num : (0 : ℝ) < 440)]
      linarith
    have := Real.logb_lt_logb (b := 2) (by norm_num) (by norm_num : (0:ℝ) < 1/8) h18
    rw [logb_one_eighth] at this
    rw [hq]
    linarith
  · have hlt1 : f / 440 < 1 := by
      rw [div_lt_one (by norm_num : (0 : ℝ) < 440)]
      linarith
    have := Real.logb_neg (b := 2) (by norm_num) (by positivity) hlt1
    rw [hq]
    linarith

/-- C9, confirmed.  Every frequency in the 80-200 Hz band maps to a non-null
NoteDetails whose cents deviation is at most half a semitone in magnitude:
the rounded note number lands in `[21, 57]`, the pitch-class lookup
succeeds, and the reported deviation is 100 times the rounding error of the
real-valued note number, hence within `[-50, 50]`. -/
theorem c9_cents_bound (f : ℝ) (h80 : 80 ≤ f) (h200 : f ≤ 200) :
    ∃ d : NoteDetails,
      frequencyToNoteDetails f = some d ∧ d.noteName.isSome = true ∧
      |d.cents| ≤ 50 := by
  have hfpos : (0 : ℝ) < f := by linarith
  have hfne : f ≠ 0 := ne_of_gt hfpos
  obtain ⟨hνl, hνu⟩ := noteNumberOf_bounds f h80 h200
  set ν := noteNumberOf f with hν
  set n : ℤ := roundedNoteNumberOf f with hn
  have hnval : n = ⌊ν + 1 / 2⌋ + 57 := rfl
  have hfl1 : ((⌊ν + 1 / 2⌋ : ℤ) : ℝ) ≤ ν + 1 / 2 := Int.floor_le _
  have hfl2 : ν + 1 / 2 < ⌊ν + 1 / 2⌋ + 1 := Int.lt_floor_add_one _
  have hn_lb : 21 ≤ n := by
    rw [hnval]
    have : (-36 : ℤ) ≤ ⌊ν + 1 / 2⌋ := by
      apply Int.le_floor.mpr
      push_cast
      linarith
    omega
  have hn_ub : n ≤ 57 := by
    rw [hnval]
    have : ⌊ν + 1 / 2⌋ < 1 := by
      apply Int.floor_lt.mpr
      push_cast
      linarith
    omega
  clear_value n
  have hn0 : 0 ≤ n := by omega
  set r : ℤ := n % 12 with hr
  set q : ℤ := n / 12 with hq
  have hr0 : 0 ≤ r := Int.emod_nonneg n (by norm_num)
  have hr12 : r < 12 := Int.emod_lt_of_pos n (by norm_num)
  have hqr : n = 12 * q + r := by omega
  have hidx : noteIndexOf f = r := by
    rw [noteIndexOf, ← hn, Int.tmod_eq_emod hn0 (by norm_num)]
  have hrlt : r.toNat < NOTE_NAMES.length := by
    have hlen : NOTE_NAMES.length = 12 := rfl
    omega
  have hname : noteNameOf f = some (NOTE_NAMES.get ⟨r.toNat, hrlt⟩) := by
    rw [noteNameOf, hidx, jsAt, if_pos hr0]
    exact List.get?_eq_get hrlt
  have hoct' : octaveOf f = q := by
    rw [octaveOf, ← hn, show n = 12 * q + r from hqr]
    exact floor_div12 q r hr0 hr12
  have hlook : jsIndexOf NOTE_NAMES (NOTE_NAMES.get ⟨r.toNat, hrlt⟩) = r := by
    rw [jsIndexOf_get_NOTE_NAMES ⟨r.toNat, hrlt⟩]
    simp [Int.toNat_of_nonneg hr0]
  have htgt : targetFrequencyOf f = 440 * (2 : ℝ) ^ (((n : ℝ) - 57) / 12) := by
    rw [targetFrequencyOf, hname, hoct', getFrequencyForNote]
    simp only [hlook]
    congr 2
    push_cast
    have : r + q * 12 = n := by omega
    rw [show ((r : ℝ) + (q : ℝ) * 12) = ((r + q * 12 : ℤ) : ℝ) by push_cast; ring,
      this]
  have hcents : 1200 * Real.logb 2 (f / targetFrequencyOf f) =
      100 * (ν - ((n : ℝ) - 57)) := by
    rw [htgt, cents_eq f hfpos n]
    rw [show ν = 12 * Real.logb 2 (f / 440) from rfl]
  rw [frequencyToNoteDetails, if_neg hfne]
  refine ⟨_, rfl, by rw [hname]; rfl, ?_⟩
  show |1200 * Real.logb 2 (f / targetFrequencyOf f)| ≤ 50
  rw [hcents]
  have hd1 : ν - ((n : ℝ) - 57) ≤ 1 / 2 := by
    rw [hnval]
    push_cast
    linarith
  have hd2 : -(1 / 2 : ℝ) ≤ ν - ((n : ℝ) - 57) := by
    rw [hnval]
    push_cast
    linarith
  rw [abs_le]
  constructor <;> linarith

/-- Witness for C9 at 110 Hz (A2). -/
theorem c9_witness :
    (80 : ℝ) ≤ 110 ∧ (110 : ℝ) ≤ 200 ∧
      ∃ d : NoteDetails,
        frequencyToNoteDetails 110 = some d ∧ d.noteName.isSome = true ∧
        |d.cents| ≤ 50 :=
  ⟨by norm_num, by norm_num, c9_cents_bound 110 (by norm_num) (by norm_num)⟩

end Afinador
